import Mathlib

/-!
Verification of the V4L2 capture / TCP storage pipeline.

The development embeds, as executable Lean functions over byte lists:
* the producer's frame encoder and payload send loop (`src/client.c`,
  `send_frame_via_network`), and its capture loop (`main_loop`, `read_frame`);
* the consumer's per-connection receiver (`handle_client` of the consumer
  server), as a function from the inbound byte stream to a trace of file
  events, with an optional per-call delivery cap modelling how the
  underlying stream may split the bytes handed to each `recv` call.

Bytes are natural numbers below 256; the 4-byte and 8-byte header integers
use the little-endian native order both endpoints share.
-/

namespace CRTP

/-- Value of a little-endian byte list. -/
def leVal : List Nat → Nat
  | [] => 0
  | b :: t => b + 256 * leVal t

/-- Little-endian encoding of a 4-byte C `int` field (the filename length). -/
def enc32 (n : Nat) : List Nat :=
  [n % 256, n / 256 % 256, n / 256 ^ 2 % 256, n / 256 ^ 3 % 256]

/-- Little-endian encoding of an 8-byte C `long` field (the payload size). -/
def enc64 (z : Int) : List Nat :=
  let m := (z % 2 ^ 64).toNat
  [m % 256, m / 256 % 256, m / 256 ^ 2 % 256, m / 256 ^ 3 % 256,
   m / 256 ^ 4 % 256, m / 256 ^ 5 % 256, m / 256 ^ 6 % 256, m / 256 ^ 7 % 256]

/-- Signed value of a 4-byte little-endian field, as the receiving `int`. -/
def dec32 (bs : List Nat) : Int :=
  let v := leVal bs
  if v < 2 ^ 31 then (v : Int) else (v : Int) - 2 ^ 32

/-- Signed value of an 8-byte little-endian field, as the receiving `long`. -/
def dec64 (bs : List Nat) : Int :=
  let v := leVal bs
  if v < 2 ^ 63 then (v : Int) else (v : Int) - 2 ^ 64

/-- Zero-pad a delivered field to its declared width (the unwritten tail of
the receiving C variable, fixed to zero in this deterministic model). -/
def padZ (k : Nat) (l : List Nat) : List Nat :=
  l ++ List.replicate (k - l.length) 0

/-- The C string read out of the zero-initialised 256-byte `filename`
buffer: the received bytes up to the first zero byte. -/
def cstr (bs : List Nat) : List Nat :=
  bs.takeWhile (fun b => b != 0)

theorem leVal_enc32 (n : Nat) : leVal (enc32 n) = n % 2 ^ 32 := by
  simp only [enc32, leVal]
  omega

theorem leVal_enc64 (z : Int) : leVal (enc64 z) = (z % 2 ^ 64).toNat := by
  have h : (z % 2 ^ 64).toNat < 2 ^ 64 := by
    have h1 : z % 2 ^ 64 < 2 ^ 64 := Int.emod_lt_of_pos z (by norm_num)
    omega
  simp only [enc64, leVal]
  omega

theorem dec32_enc32 (n : Nat) (h : n < 2 ^ 31) : dec32 (enc32 n) = (n : Int) := by
  have h32 : n % 2 ^ 32 = n := Nat.mod_eq_of_lt (by omega)
  simp [dec32, leVal_enc32, h32]
  omega

theorem dec64_enc64 (z : Int) (h1 : -(2 ^ 63) ≤ z) (h2 : z < 2 ^ 63) :
    dec64 (enc64 z) = z := by
  have hm : z % 2 ^ 64 = z ∨ z % 2 ^ 64 = z + 2 ^ 64 := by
    rcases le_or_lt 0 z with hz | hz
    · left; exact Int.emod_eq_of_lt hz (by omega)
    · right
      have : (z + 2 ^ 64) % 2 ^ 64 = z % 2 ^ 64 := by omega
      rw [← this]
      exact Int.emod_eq_of_lt (by omega) (by omega)
  have hnn : 0 ≤ z % 2 ^ 64 := Int.emod_nonneg z (by norm_num)
  simp only [dec64, leVal_enc64]
  rcases hm with hm | hm <;> simp [hm] <;> omega

@[simp] theorem enc32_length (n : Nat) : (enc32 n).length = 4 := by
  simp [enc32]

@[simp] theorem enc64_length (z : Int) : (enc64 z).length = 8 := by
  simp [enc64]

theorem padZ_of_length (k : Nat) (l : List Nat) (h : l.length = k) :
    padZ k l = l := by
  simp [padZ, h]

theorem cstr_of_no_zero (bs : List Nat) (h : ∀ b ∈ bs, b ≠ 0) : cstr bs = bs := by
  induction bs with
  | nil => rfl
  | cons a t ih =>
    have ha : a ≠ 0 := h a (List.mem_cons_self _ _)
    have ht : ∀ b ∈ t, b ≠ 0 := fun b hb => h b (List.mem_cons_of_mem _ hb)
    have hb : (a != 0) = true := by simpa using ha
    simp [cstr, List.takeWhile, hb]
    simpa [cstr] using ih ht

/-!
Producer side: `send_frame_via_network` of `src/client.c`. The header is
three unchecked writes (filename length, filename bytes, payload size);
the payload is sent by a loop that retries until `total_sent` reaches
`file_size`, aborting only when `send` returns a negative value.
-/

/-- The three header fields written by `send_frame_via_network` before the
payload: 4-byte name length, the name bytes, 8-byte payload size. -/
def sendHeader (name : List Nat) (fsize : Int) : List Nat :=
  enc32 name.length ++ name ++ enc64 fsize

/-- The full byte sequence the producer's encoder emits for one message. -/
def encodeFrame (name payload : List Nat) : List Nat :=
  sendHeader name (payload.length : Int) ++ payload

/-- The payload send loop of `send_frame_via_network`. `oracle` lists the
return value of each successive `send` call (capped by the number of bytes
requested, which is always the remaining count). Returns the bytes put on
the wire, in order, and whether the loop confirmed the full payload sent.
A negative result aborts; a short (even zero) result is retried. -/
def sendLoop (p : List Nat) : Nat → List Int → List Nat × Bool
  | total, [] => if total < p.length then ([], false) else ([], true)
  | total, k :: rest =>
    if total < p.length then
      if k < 0 then ([], false)
      else
        let sent := min k.toNat (p.length - total)
        let out := sendLoop p (total + sent) rest
        ((p.drop total).take sent ++ out.1, out.2)
    else ([], true)

/-- `read_frame` hands `send_frame_via_network` the mapped buffer and the
device-reported `bytesused`; the payload sent is that many leading bytes. -/
def sendFrameData (buffer : List Nat) (used : Nat) (oracle : List Int) :
    List Nat × Bool :=
  sendLoop (buffer.take used) 0 oracle

/-!
Producer side: the capture loop (`main_loop` and `read_frame` of
`src/client.c`). Each loop iteration is driven by one oracle event:
a `select` error, a `select` timeout, or readiness followed by a
`VIDIOC_DQBUF` outcome. `read_frame` returns 0 on `EAGAIN` (not ready),
-1 on any other dequeue error, and 1 after a frame is sent and requeued;
`main_loop` decrements its counter whenever that return value is nonzero.
-/

/-- Outcome of the `VIDIOC_DQBUF` call inside `read_frame`. -/
inductive DevRes where
  | notReady : DevRes
  | fatal : DevRes
  | frame : Nat → DevRes
deriving DecidableEq, Repr

/-- One iteration's worth of environment behaviour in `main_loop`. -/
inductive LoopEv where
  | selErr : LoopEv
  | selTimeout : LoopEv
  | ready : DevRes → LoopEv
deriving DecidableEq, Repr

/-- Return value of `read_frame` for each dequeue outcome. -/
def readFrameRet : DevRes → Int
  | .notReady => 0
  | .fatal => -1
  | .frame _ => 1

/-- `main_loop`: returns the remaining frame counter at exit, the
used-lengths of the frames actually sent, and whether the loop exited
through the `select` error branch. -/
def mainLoop (n : Nat) : List LoopEv → Nat × List Nat × Bool
  | [] => (n, [], false)
  | e :: rest =>
    if n = 0 then (0, [], false)
    else
      match e with
      | .selErr => (n, [], true)
      | .selTimeout => mainLoop n rest
      | .ready r =>
        if readFrameRet r = 0 then mainLoop n rest
        else
          let out := mainLoop (n - 1) rest
          (out.1, (match r with | .frame u => [u] | _ => []) ++ out.2.1, out.2.2)

/-!
Consumer side: `handle_client` of the consumer server. The receiver is a
function from the inbound byte stream to a trace of observable events: each
`recv` call (requested and delivered byte counts), each `fopen`, each
`fwrite` chunk, and each `fclose`. Delivery per `recv` call is the most the
call can return — `min` of the requested count and the bytes still in the
stream — further capped by an optional schedule modelling how the transport
may split the stream across calls (an empty schedule means no extra cap).
A delivered count of zero is what the C code observes as `recv(...) <= 0`.
-/

/-- Observable receiver events. -/
inductive Ev where
  | rrecv : Nat → Nat → Ev
  | fopen : List Nat → Ev
  | fwrite : List Nat → Ev
  | fclose : Ev
deriving DecidableEq, Repr

/-- Per-`recv` delivery caps; an exhausted schedule imposes no cap. -/
abbrev Sched := List Nat

/-- Pop the next delivery cap. -/
def popCap : Sched → Option Nat × Sched
  | [] => (none, [])
  | c :: t => (some c, t)

/-- Result of the payload reception loop. -/
structure ROut where
  evs : List Ev
  rest : List Nat
  sched : Sched
  aborted : Bool
  reqs : List (Int × Nat)
deriving DecidableEq, Repr

/-- The payload reception loop of `handle_client`, fuelled (one unit per
iteration; each productive iteration consumes at least one stream byte, so
`s.length + 1` units always suffice — see `payloadLoop`). Per iteration it
requests `min (file_size - total_received) 4096` bytes, aborts when the
read delivers nothing, otherwise writes the delivered chunk and repeats.
`reqs` records, per issued read, the bytes still owed and the request. -/
def payloadLoopF : Nat → Int → Int → List Nat → Sched → ROut
  | 0, _, _, s, sc => ⟨[], s, sc, true, []⟩
  | fuel + 1, fsize, total, s, sc =>
    if total < fsize then
      let req := (min (fsize - total) 4096).toNat
      let pc := popCap sc
      let got := min (min req s.length) (pc.1.getD s.length)
      if got = 0 then
        ⟨[.rrecv req 0], s, pc.2, true, [(fsize - total, req)]⟩
      else
        let chunk := s.take got
        let out := payloadLoopF fuel fsize (total + (got : Int)) (s.drop got) pc.2
        ⟨.rrecv req got :: .fwrite chunk :: out.evs, out.rest, out.sched,
          out.aborted, (fsize - total, req) :: out.reqs⟩
    else ⟨[], s, sc, false, []⟩

/-- The payload reception loop, with enough fuel for its stream. -/
def payloadLoop (fsize total : Int) (s : List Nat) (sc : Sched) : ROut :=
  payloadLoopF (s.length + 1) fsize total s sc

/-- One connection's `handle_client` run, fuelled (one unit per message of
the outer `while(1)` loop; each message consumes at least one stream byte,
so `s.length + 1` units always suffice — see `handleClient`). Per message:
read 4 bytes of name length (a zero delivery is the clean end of the
connection), read `name_len` bytes of filename into the zeroed 256-byte
buffer, read 8 bytes of file size, open the named file, run the payload
loop, close the file, and loop on the remaining stream. -/
def handleClientF : Nat → List Nat → Sched → List Ev
  | 0, _, _ => []
  | fuel + 1, s, sc =>
    let pc1 := popCap sc
    let g1 := min (min 4 s.length) (pc1.1.getD s.length)
    if g1 = 0 then [.rrecv 4 0]
    else
      let nlen := dec32 (padZ 4 (s.take g1))
      let s1 := s.drop g1
      let req2 := nlen.toNat
      let pc2 := popCap pc1.2
      let g2 := min (min req2 s1.length) (pc2.1.getD s1.length)
      if g2 = 0 then [.rrecv 4 g1, .rrecv req2 0]
      else
        let fname := cstr (s1.take g2)
        let s2 := s1.drop g2
        let pc3 := popCap pc2.2
        let g3 := min (min 8 s2.length) (pc3.1.getD s2.length)
        if g3 = 0 then [.rrecv 4 g1, .rrecv req2 g2, .rrecv 8 0]
        else
          let fsize := dec64 (padZ 8 (s2.take g3))
          let s3 := s2.drop g3
          let out := payloadLoop fsize 0 s3 pc3.2
          .rrecv 4 g1 :: .rrecv req2 g2 :: .rrecv 8 g3 :: .fopen fname ::
            (out.evs ++ .fclose :: handleClientF fuel out.rest out.sched)

/-- One connection's `handle_client` run, with enough fuel for its stream. -/
def handleClient (s : List Nat) (sc : Sched) : List Ev :=
  handleClientF (s.length + 1) s sc

/-- The sequential listener: each accepted connection's stream is handled
to completion (with full delivery) before the next is accepted. -/
def serverRun (conns : List (List Nat)) : List (List Ev) :=
  conns.map (fun s => handleClient s [])

/-- Flattened content of the `fwrite` events of a trace. -/
def writesOf : List Ev → List Nat
  | [] => []
  | .fwrite c :: t => c ++ writesOf t
  | _ :: t => writesOf t

/-- Events that are neither `fopen` nor `fclose`. -/
def plainEv : Ev → Bool
  | .rrecv _ _ => true
  | .fwrite _ => true
  | _ => false

/-- Length of the chunk an event writes (zero for non-write events). -/
def evLen : Ev → Nat
  | .fwrite c => c.length
  | _ => 0

/-- Number of `fclose` events in a trace. -/
def closes (t : List Ev) : Nat :=
  t.countP (fun e => match e with | .fclose => true | _ => false)

/-- Fold a trace into the files it leaves on disk: a file begins at
`fopen`, accumulates `fwrite` chunks, and is emitted at `fclose` (or at
end of trace if never closed). -/
def filesOfAux : List Ev → Option (List Nat × List Nat) → List (List Nat × List Nat)
  | [], none => []
  | [], some f => [f]
  | .fopen n :: t, _ => filesOfAux t (some (n, []))
  | .fwrite c :: t, some f => filesOfAux t (some (f.1, f.2 ++ c))
  | .fwrite _ :: t, none => filesOfAux t none
  | .fclose :: t, some f => f :: filesOfAux t none
  | .fclose :: t, none => filesOfAux t none
  | .rrecv _ _ :: t, acc => filesOfAux t acc

/-- The (name, content) pairs of the files a trace produces, in order. -/
def filesOf (t : List Ev) : List (List Nat × List Nat) :=
  filesOfAux t none

/-! Invariants of the payload reception loop. -/

theorem payloadLoopF_rest_le (fuel : Nat) :
    ∀ (fsize total : Int) (s : List Nat) (sc : Sched),
      (payloadLoopF fuel fsize total s sc).rest.length ≤ s.length := by
  induction fuel with
  | zero => intro fsize total s sc; simp [payloadLoopF]
  | succ n ih =>
    intro fsize total s sc
    unfold payloadLoopF
    dsimp only
    split
    · split
      · simp
      · exact le_trans (ih _ _ _ _) (by simp)
    · simp

theorem payloadLoopF_sched_nil (fuel : Nat) :
    ∀ (fsize total : Int) (s : List Nat),
      (payloadLoopF fuel fsize total s []).sched = [] := by
  induction fuel with
  | zero => intro fsize total s; simp [payloadLoopF]
  | succ n ih =>
    intro fsize total s
    unfold payloadLoopF
    dsimp only [popCap]
    split
    · split
      · simp
      · exact ih _ _ _
    · simp

theorem payloadLoopF_plain (fuel : Nat) :
    ∀ (fsize total : Int) (s : List Nat) (sc : Sched),
      ∀ e ∈ (payloadLoopF fuel fsize total s sc).evs, plainEv e = true := by
  induction fuel with
  | zero => intro fsize total s sc; simp [payloadLoopF]
  | succ n ih =>
    intro fsize total s sc
    unfold payloadLoopF
    dsimp only
    split
    · split
      · simp [plainEv]
      · intro e he
        simp only [List.mem_cons] at he
        rcases he with rfl | rfl | he
        · rfl
        · rfl
        · exact ih _ _ _ _ e he
    · simp

theorem payloadLoopF_done (fuel : Nat) (fsize total : Int) (s : List Nat)
    (sc : Sched) (h : fsize ≤ total) :
    payloadLoopF (fuel + 1) fsize total s sc = ⟨[], s, sc, false, []⟩ := by
  unfold payloadLoopF
  simp [not_lt.mpr h]

theorem payloadLoopF_take (fuel : Nat) :
    ∀ (fsize total : Int) (s : List Nat), s.length < fuel → total < fsize →
      fsize - total ≤ (s.length : Int) →
      (payloadLoopF fuel fsize total s []).aborted = false ∧
      (payloadLoopF fuel fsize total s []).rest = s.drop (fsize - total).toNat ∧
      writesOf (payloadLoopF fuel fsize total s []).evs =
        s.take (fsize - total).toNat := by
  induction fuel with
  | zero => intro fsize total s hf; omega
  | succ n ih =>
    intro fsize total s hf hlt hle
    have hs1 : 1 ≤ s.length := by omega
    unfold payloadLoopF
    dsimp only [popCap, Option.getD]
    rw [if_pos hlt]
    set req := (min (fsize - total) 4096).toNat with hreq
    have hreq1 : 1 ≤ req := by omega
    have hreqle : (req : Int) ≤ fsize - total := by omega
    set got := min (min req s.length) s.length with hgot
    have hgotval : got = min req s.length := by omega
    have hgot1 : 1 ≤ got := by omega
    have hgotle : (got : Int) ≤ fsize - total := by
      have : got ≤ req := by omega
      omega
    rw [if_neg (by omega)]
    by_cases hdone : fsize ≤ total + (got : Int)
    · have hgoteq : (got : Int) = fsize - total := by omega
      have hgotnat : got = (fsize - total).toNat := by omega
      obtain ⟨m, rfl⟩ : ∃ m, n = m + 1 := ⟨n - 1, by omega⟩
      rw [payloadLoopF_done m fsize (total + (got : Int)) _ _ hdone]
      refine ⟨rfl, ?_, ?_⟩
      · simp only [ROut.rest]
        rw [hgotnat]
      · simp only [ROut.evs, writesOf]
        rw [hgotnat]
        simp
    · have hrec := ih fsize (total + (got : Int)) (s.drop got)
        (by simp; omega) (by omega) (by simp; omega)
      refine ⟨hrec.1, ?_, ?_⟩
      · simp only [ROut.rest]
        rw [hrec.2.1, List.drop_drop]
        congr 1
        omega
      · simp only [ROut.evs, writesOf]
        rw [hrec.2.2]
        have : (fsize - total).toNat = got + (fsize - (total + (got : Int))).toNat := by
          omega
        rw [this, List.take_add]

theorem payloadLoopF_abort (fuel : Nat) :
    ∀ (fsize total : Int) (s : List Nat), s.length < fuel → total < fsize →
      (s.length : Int) < fsize - total →
      (payloadLoopF fuel fsize total s []).aborted = true ∧
      (payloadLoopF fuel fsize total s []).rest = [] ∧
      writesOf (payloadLoopF fuel fsize total s []).evs = s := by
  induction fuel with
  | zero => intro fsize total s hf; omega
  | succ n ih =>
    intro fsize total s hf hlt hgt
    unfold payloadLoopF
    dsimp only [popCap, Option.getD]
    rw [if_pos hlt]
    set req := (min (fsize - total) 4096).toNat with hreq
    have hreq1 : 1 ≤ req := by omega
    set got := min (min req s.length) s.length with hgot
    by_cases hnil : s.length = 0
    · have hs : s = [] := List.length_eq_zero.mp hnil
      have : got = 0 := by omega
      rw [if_pos this]
      exact ⟨rfl, by simp [hs], by simp [hs, writesOf]⟩
    · have hgot1 : 1 ≤ got := by omega
      rw [if_neg (by omega)]
      have hrec := ih fsize (total + (got : Int)) (s.drop got)
        (by simp; omega) (by omega) (by simp; omega)
      refine ⟨hrec.1, ?_, ?_⟩
      · simpa only [ROut.rest] using hrec.2.1
      · simp only [ROut.evs, writesOf]
        rw [hrec.2.2]
        exact List.take_append_drop got s

theorem payloadLoopF_bounds (fuel : Nat) :
    ∀ (fsize total : Int) (s : List Nat) (sc : Sched),
      (∀ pr ∈ (payloadLoopF fuel fsize total s sc).reqs,
          pr.2 ≤ 4096 ∧ (pr.2 : Int) ≤ pr.1) ∧
      (∀ e ∈ (payloadLoopF fuel fsize total s sc).evs, evLen e ≤ 4096) := by
  induction fuel with
  | zero => intro fsize total s sc; simp [payloadLoopF]
  | succ n ih =>
    intro fsize total s sc
    unfold payloadLoopF
    dsimp only
    split
    · rename_i hlt
      split
      · constructor
        · intro pr hpr
          simp only [List.mem_singleton] at hpr
          subst hpr
          constructor
          · simp only []
            omega
          · simp only []
            omega
        · intro e he
          simp only [List.mem_singleton] at he
          subst he
          simp [evLen]
      · rename_i hg
        constructor
        · intro pr hpr
          simp only [List.mem_cons] at hpr
          rcases hpr with rfl | hpr
          · constructor
            · simp only []
              omega
            · simp only []
              omega
          · exact (ih _ _ _ _).1 pr hpr
        · intro e he
          simp only [List.mem_cons] at he
          rcases he with rfl | rfl | he
          · simp [evLen]
          · simp only [evLen, List.length_take]
            omega
          · exact (ih _ _ _ _).2 e he
    · simp

theorem payloadLoop_done (fsize total : Int) (s : List Nat) (sc : Sched)
    (h : fsize ≤ total) : payloadLoop fsize total s sc = ⟨[], s, sc, false, []⟩ :=
  payloadLoopF_done _ _ _ _ _ h

theorem payloadLoop_sched_nil (fsize total : Int) (s : List Nat) :
    (payloadLoop fsize total s []).sched = [] :=
  payloadLoopF_sched_nil _ _ _ _

theorem payloadLoop_plain (fsize total : Int) (s : List Nat) (sc : Sched) :
    ∀ e ∈ (payloadLoop fsize total s sc).evs, plainEv e = true :=
  payloadLoopF_plain _ _ _ _ _

theorem payloadLoop_take (fsize : Int) (s : List Nat) (h0 : 0 < fsize)
    (hle : fsize ≤ (s.length : Int)) :
    (payloadLoop fsize 0 s []).aborted = false ∧
    (payloadLoop fsize 0 s []).rest = s.drop fsize.toNat ∧
    writesOf (payloadLoop fsize 0 s []).evs = s.take fsize.toNat := by
  have h := payloadLoopF_take (s.length + 1) fsize 0 s (by omega) h0 (by omega)
  simpa using h

theorem payloadLoop_abort (fsize : Int) (s : List Nat) (h0 : 0 < fsize)
    (hgt : (s.length : Int) < fsize) :
    (payloadLoop fsize 0 s []).aborted = true ∧
    (payloadLoop fsize 0 s []).rest = [] ∧
    writesOf (payloadLoop fsize 0 s []).evs = s := by
  have h := payloadLoopF_abort (s.length + 1) fsize 0 s (by omega) h0 (by omega)
  simpa using h

/-! The per-message behaviour of `handle_client` on a fully delivered,
well-formed header. -/

theorem handleClientF_nil (fuel : Nat) (sc : Sched) :
    handleClientF (fuel + 1) [] sc = [.rrecv 4 0] := by
  unfold handleClientF
  simp

theorem handleClient_msg (fuel : Nat) (name tail : List Nat) (z : Int)
    (h1 : 1 ≤ name.length) (h2 : name.length ≤ 255)
    (h3 : ∀ b ∈ name, b ≠ 0) (h4 : -(2 ^ 63) ≤ z) (h5 : z < 2 ^ 63) :
    handleClientF (fuel + 1) (sendHeader name z ++ tail) [] =
      .rrecv 4 4 :: .rrecv name.length name.length :: .rrecv 8 8 ::
        .fopen name :: ((payloadLoop z 0 tail []).evs ++
          .fclose :: handleClientF fuel (payloadLoop z 0 tail []).rest []) := by
  have e0 : sendHeader name z ++ tail =
      enc32 name.length ++ (name ++ (enc64 z ++ tail)) := by
    simp [sendHeader, List.append_assoc]
  rw [e0]
  set s := enc32 name.length ++ (name ++ (enc64 z ++ tail)) with hs
  conv_lhs => unfold handleClientF
  dsimp only [popCap, Option.getD]
  have hlen : s.length = 12 + name.length + tail.length := by
    rw [hs]; simp; omega
  have hg1 : min (min 4 s.length) s.length = 4 := by omega
  rw [hg1, if_neg (by decide)]
  have ht4 : s.take 4 = enc32 name.length := by
    rw [hs]; exact List.take_left' (enc32_length _)
  have hd4 : s.drop 4 = name ++ (enc64 z ++ tail) := by
    rw [hs]; exact List.drop_left' (enc32_length _)
  rw [ht4, hd4, padZ_of_length 4 _ (enc32_length _), dec32_enc32 _ (by omega)]
  have hreq2 : ((name.length : Int)).toNat = name.length := by omega
  rw [hreq2]
  have hlen1 : (name ++ (enc64 z ++ tail)).length = name.length + (8 + tail.length) := by
    simp
  have hg2 : min (min name.length (name ++ (enc64 z ++ tail)).length)
      (name ++ (enc64 z ++ tail)).length = name.length := by
    rw [hlen1]; omega
  rw [hg2, if_neg (by omega)]
  have ht2 : (name ++ (enc64 z ++ tail)).take name.length = name :=
    List.take_left' rfl
  have hd2 : (name ++ (enc64 z ++ tail)).drop name.length = enc64 z ++ tail :=
    List.drop_left' rfl
  rw [ht2, hd2, cstr_of_no_zero name h3]
  have hlen2 : (enc64 z ++ tail).length = 8 + tail.length := by simp
  have hg3 : min (min 8 (enc64 z ++ tail).length) (enc64 z ++ tail).length = 8 := by
    rw [hlen2]; omega
  rw [hg3, if_neg (by decide)]
  have ht3 : (enc64 z ++ tail).take 8 = enc64 z := List.take_left' (enc64_length _)
  have hd3 : (enc64 z ++ tail).drop 8 = tail := List.drop_left' (enc64_length _)
  rw [ht3, hd3, padZ_of_length 8 _ (enc64_length _), dec64_enc64 z h4 h5,
    payloadLoop_sched_nil]

/-! Reading traces back into files. -/

theorem filesOfAux_plain (evs : List Ev) (h : ∀ e ∈ evs, plainEv e = true) :
    ∀ (r : List Ev) (n cs : List Nat),
      filesOfAux (evs ++ .fclose :: r) (some (n, cs)) =
        (n, cs ++ writesOf evs) :: filesOfAux r none := by
  induction evs with
  | nil => intro r n cs; simp [filesOfAux, writesOf]
  | cons a t ih =>
    intro r n cs
    have ha := h a (List.mem_cons_self _ _)
    have ht := fun e he => h e (List.mem_cons_of_mem a he)
    cases a with
    | rrecv q g =>
      simp only [List.cons_append, filesOfAux, writesOf]
      exact ih ht r n cs
    | fwrite c =>
      simp only [List.cons_append, filesOfAux, writesOf, List.append_eq]
      rw [ih ht r n (cs ++ c)]
      simp [List.append_assoc]
    | fopen n' => simp [plainEv] at ha
    | fclose => simp [plainEv] at ha

theorem closes_plain (evs : List Ev) (h : ∀ e ∈ evs, plainEv e = true) :
    closes evs = 0 := by
  apply List.countP_eq_zero.mpr
  intro e he
  have := h e he
  cases e <;> simp_all [plainEv]

theorem closes_append (a b : List Ev) : closes (a ++ b) = closes a + closes b :=
  List.countP_append _ _ _

theorem payload_exact (p rest : List Nat) :
    (payloadLoop (p.length : Int) 0 (p ++ rest) []).rest = rest ∧
    writesOf (payloadLoop (p.length : Int) 0 (p ++ rest) []).evs = p := by
  rcases Nat.eq_zero_or_pos p.length with h0 | hpos
  · have hp : p = [] := List.length_eq_zero.mp h0
    subst hp
    rw [payloadLoop_done _ _ _ _ (by simp)]
    exact ⟨rfl, rfl⟩
  · have h := payloadLoop_take (p.length : Int) (p ++ rest)
      (by omega) (by simp)
    refine ⟨?_, ?_⟩
    · rw [h.2.1]
      have : ((p.length : Int)).toNat = p.length := by omega
      rw [this]
      exact List.drop_left' rfl
    · rw [h.2.2]
      have : ((p.length : Int)).toNat = p.length := by omega
      rw [this]
      exact List.take_left' rfl

theorem filesOf_handleNil (k : Nat) :
    filesOfAux (handleClientF k [] []) none = [] := by
  cases k with
  | zero => simp [handleClientF, filesOfAux]
  | succ m => rw [handleClientF_nil]; simp [filesOfAux]

theorem closes_handleNil (k : Nat) : closes (handleClientF k [] []) = 0 := by
  cases k with
  | zero => simp [handleClientF, closes]
  | succ m => rw [handleClientF_nil]; simp [closes]

/-! Claim theorems. -/

/-- C1 (counterexample): a message whose name has length 0 — allowed by the
claim, which only bounds the name length by 255 — is rejected by the
receiver: the zero-length filename read returns 0, which `handle_client`
treats as a failure, so no file at all is produced, not one whose name
matches the sent (empty) name. -/
theorem roundtrip_cex :
    filesOf (handleClient (encodeFrame [] []) []) = [] ∧
    handleClient (encodeFrame [] []) [] = [.rrecv 4 4, .rrecv 0 0] := by
  decide

/-- C1 (amended): for a message whose name has length 1..255 and no zero
byte, and whose payload is shorter than 2^63 bytes (the signed 8-byte size
field), sending it through the producer's encoder and feeding the byte
stream to the receiver produces exactly one file whose name equals the sent
name and whose content (hence size) equals the sent payload. -/
theorem roundtrip_single (name payload : List Nat)
    (h1 : 1 ≤ name.length) (h2 : name.length ≤ 255)
    (h3 : ∀ b ∈ name, b ≠ 0) (h4 : (payload.length : Int) < 2 ^ 63) :
    filesOf (handleClient (encodeFrame name payload) []) = [(name, payload)] := by
  have he : encodeFrame name payload =
      sendHeader name (payload.length : Int) ++ payload := rfl
  rw [he]
  unfold handleClient
  rw [handleClient_msg _ name payload _ h1 h2 h3 (by omega) h4]
  have hex := payload_exact payload []
  rw [List.append_nil] at hex
  simp only [filesOf, filesOfAux]
  rw [filesOfAux_plain _ (payloadLoop_plain _ _ _ _), hex.2, hex.1,
    filesOf_handleNil]
  simp

/-- C1 (witness for the amended theorem). -/
theorem roundtrip_single_witness :
    filesOf (handleClient (encodeFrame [97, 46, 114, 97, 119] [7, 8, 9]) []) =
      [([97, 46, 114, 97, 119], [7, 8, 9])] :=
  roundtrip_single [97, 46, 114, 97, 119] [7, 8, 9]
    (by decide) (by decide) (by decide) (by decide)

/-- C3: after a message completes, the receiver loops back to reading the
next name length on the same connection: a stream carrying two well-formed
messages back-to-back yields two files, correctly named and sized, with no
reconnect (a single `handle_client` run). -/
theorem back_to_back (n1 p1 n2 p2 : List Nat)
    (ha1 : 1 ≤ n1.length) (ha2 : n1.length ≤ 255) (ha3 : ∀ b ∈ n1, b ≠ 0)
    (ha4 : (p1.length : Int) < 2 ^ 63)
    (hb1 : 1 ≤ n2.length) (hb2 : n2.length ≤ 255) (hb3 : ∀ b ∈ n2, b ≠ 0)
    (hb4 : (p2.length : Int) < 2 ^ 63) :
    filesOf (handleClient (encodeFrame n1 p1 ++ encodeFrame n2 p2) []) =
      [(n1, p1), (n2, p2)] := by
  have he : encodeFrame n1 p1 ++ encodeFrame n2 p2 =
      sendHeader n1 (p1.length : Int) ++ (p1 ++ encodeFrame n2 p2) := by
    simp [encodeFrame, List.append_assoc]
  rw [he]
  unfold handleClient
  rw [handleClient_msg _ n1 (p1 ++ encodeFrame n2 p2) _ ha1 ha2 ha3 (by omega) ha4]
  have hex := payload_exact p1 (encodeFrame n2 p2)
  simp only [filesOf, filesOfAux]
  rw [filesOfAux_plain _ (payloadLoop_plain _ _ _ _), hex.2, hex.1]
  set fuel := (sendHeader n1 (p1.length : Int) ++ (p1 ++ encodeFrame n2 p2)).length
    with hfuel
  obtain ⟨k, hk⟩ : ∃ k, fuel = k + 1 := by
    refine ⟨fuel - 1, ?_⟩
    rw [hfuel]
    simp [sendHeader]
    omega
  rw [hk]
  have he2 : encodeFrame n2 p2 = sendHeader n2 (p2.length : Int) ++ p2 := rfl
  rw [he2, handleClient_msg k n2 p2 _ hb1 hb2 hb3 (by omega) hb4]
  have hex2 := payload_exact p2 []
  rw [List.append_nil] at hex2
  simp only [filesOfAux]
  rw [filesOfAux_plain _ (payloadLoop_plain _ _ _ _), hex2.2, hex2.1,
    filesOf_handleNil]
  simp

/-- C3 (witness). -/
theorem back_to_back_witness :
    filesOf (handleClient (encodeFrame [97] [1, 2] ++ encodeFrame [98, 99] [5]) []) =
      [([97], [1, 2]), ([98, 99], [5])] :=
  back_to_back [97] [1, 2] [98, 99] [5] (by decide) (by decide) (by decide)
    (by decide) (by decide) (by decide) (by decide) (by decide)

/-- C2: in the payload phase every issued read request is at most the 4096
byte chunk size and at most the bytes still owed for the current message
(recorded per request in `reqs`); every chunk written to disk is at most one
chunk long; and, with the declared size available on the stream, the loop
consumes exactly the declared bytes into the file, leaving the bytes of any
following message untouched on the stream. -/
theorem payload_read_bounds (fsize : Int) (s : List Nat) (sc : Sched)
    (h1 : 0 ≤ fsize) (h2 : fsize ≤ (s.length : Int)) :
    (∀ pr ∈ (payloadLoop fsize 0 s sc).reqs, pr.2 ≤ 4096 ∧ (pr.2 : Int) ≤ pr.1) ∧
    (∀ e ∈ (payloadLoop fsize 0 s sc).evs, evLen e ≤ 4096) ∧
    (payloadLoop fsize 0 s []).rest = s.drop fsize.toNat ∧
    writesOf (payloadLoop fsize 0 s []).evs = s.take fsize.toNat := by
  refine ⟨(payloadLoopF_bounds _ _ _ _ _).1, (payloadLoopF_bounds _ _ _ _ _).2,
    ?_, ?_⟩
  · rcases lt_or_eq_of_le h1 with hpos | hzero
    · exact (payloadLoop_take fsize s hpos h2).2.1
    · rw [payloadLoop_done _ _ _ _ (by omega)]
      simp [← hzero]
  · rcases lt_or_eq_of_le h1 with hpos | hzero
    · exact (payloadLoop_take fsize s hpos h2).2.2
    · rw [payloadLoop_done _ _ _ _ (by omega)]
      simp [← hzero, writesOf]

/-- C2 (witness). -/
theorem payload_read_bounds_witness :
    (∀ pr ∈ (payloadLoop 5 0 [1, 2, 3, 4, 5, 6, 7] []).reqs,
        pr.2 ≤ 4096 ∧ (pr.2 : Int) ≤ pr.1) ∧
    (∀ e ∈ (payloadLoop 5 0 [1, 2, 3, 4, 5, 6, 7] []).evs, evLen e ≤ 4096) ∧
    (payloadLoop 5 0 [1, 2, 3, 4, 5, 6, 7] []).rest =
      [1, 2, 3, 4, 5, 6, 7].drop (5 : Int).toNat ∧
    writesOf (payloadLoop 5 0 [1, 2, 3, 4, 5, 6, 7] []).evs =
      [1, 2, 3, 4, 5, 6, 7].take (5 : Int).toNat :=
  payload_read_bounds 5 [1, 2, 3, 4, 5, 6, 7] [] (by decide) (by decide)

/-- C5: if the stream ends (every further read returns ≤ 0) before the
declared payload size is reached, the receiver closes the output file
exactly once, keeping whatever partial content had arrived, the session's
trace ends, and the sequential listener handles the remaining connections
exactly as it would have. -/
theorem abort_partial (name part : List Nat) (z : Int) (conns : List (List Nat))
    (h1 : 1 ≤ name.length) (h2 : name.length ≤ 255) (h3 : ∀ b ∈ name, b ≠ 0)
    (h4 : 0 < z) (h5 : z < 2 ^ 63) (h6 : (part.length : Int) < z) :
    filesOf (handleClient (sendHeader name z ++ part) []) = [(name, part)] ∧
    closes (handleClient (sendHeader name z ++ part) []) = 1 ∧
    serverRun ((sendHeader name z ++ part) :: conns) =
      handleClient (sendHeader name z ++ part) [] :: serverRun conns := by
  have hab := payloadLoop_abort z part h4 h6
  refine ⟨?_, ?_, by simp [serverRun]⟩
  · unfold handleClient
    rw [handleClient_msg _ name part _ h1 h2 h3 (by omega) h5]
    simp only [filesOf, filesOfAux]
    rw [filesOfAux_plain _ (payloadLoop_plain _ _ _ _), hab.2.2, hab.2.1,
      filesOf_handleNil]
    simp
  · unfold handleClient
    rw [handleClient_msg _ name part _ h1 h2 h3 (by omega) h5]
    simp only [closes, List.countP_cons]
    rw [← closes, closes_append, closes_plain _ (payloadLoop_plain _ _ _ _)]
    simp only [closes, List.countP_cons]
    rw [← closes, hab.2.1, closes_handleNil]
    simp

/-- C5 (witness): size 5 declared, only 2 bytes arrive. -/
theorem abort_partial_witness :
    filesOf (handleClient (sendHeader [97] 5 ++ [9, 9]) []) = [([97], [9, 9])] ∧
    closes (handleClient (sendHeader [97] 5 ++ [9, 9]) []) = 1 ∧
    serverRun ((sendHeader [97] 5 ++ [9, 9]) :: [[]]) =
      handleClient (sendHeader [97] 5 ++ [9, 9]) [] :: serverRun [[]] :=
  abort_partial [97] [9, 9] 5 [[]] (by decide) (by decide) (by decide)
    (by decide) (by decide) (by decide)

/-- C7: a declared payload size of zero makes the payload loop exit before
issuing any read (`reqs` is empty), and the message yields a zero-byte file
with the received name; the receiver then sees the clean end of the
stream. -/
theorem zero_size_msg (name : List Nat)
    (h1 : 1 ≤ name.length) (h2 : name.length ≤ 255) (h3 : ∀ b ∈ name, b ≠ 0) :
    handleClient (sendHeader name 0) [] =
      [.rrecv 4 4, .rrecv name.length name.length, .rrecv 8 8, .fopen name,
        .fclose, .rrecv 4 0] ∧
    filesOf (handleClient (sendHeader name 0) []) = [(name, [])] ∧
    (payloadLoop 0 0 ([] : List Nat) []).reqs = [] := by
  have hmain : handleClient (sendHeader name 0) [] =
      [.rrecv 4 4, .rrecv name.length name.length, .rrecv 8 8, .fopen name,
        .fclose, .rrecv 4 0] := by
    have he : sendHeader name 0 = sendHeader name 0 ++ [] := by simp
    rw [he]
    unfold handleClient
    rw [handleClient_msg _ name [] 0 h1 h2 h3 (by omega) (by omega),
      payloadLoop_done 0 0 [] [] le_rfl]
    set fuel := (sendHeader name 0 ++ []).length with hfuel
    obtain ⟨k, hk⟩ : ∃ k, fuel = k + 1 := by
      refine ⟨fuel - 1, ?_⟩
      rw [hfuel]
      simp [sendHeader]
      omega
    rw [hk, handleClientF_nil]
    simp
  refine ⟨hmain, ?_, ?_⟩
  · rw [hmain]
    simp [filesOf, filesOfAux]
  · rw [payloadLoop_done 0 0 [] [] le_rfl]

/-- C7 (witness): name "a.raw", size 0. -/
theorem zero_size_witness :
    handleClient (sendHeader [97, 46, 114, 97, 119] 0) [] =
      [.rrecv 4 4, .rrecv 5 5, .rrecv 8 8, .fopen [97, 46, 114, 97, 119],
        .fclose, .rrecv 4 0] ∧
    filesOf (handleClient (sendHeader [97, 46, 114, 97, 119] 0) []) =
      [([97, 46, 114, 97, 119], [])] ∧
    (payloadLoop 0 0 ([] : List Nat) []).reqs = [] :=
  zero_size_msg [97, 46, 114, 97, 119] (by decide) (by decide) (by decide)

/-- C10: a negative declared payload size fails the loop guard at once: the
receiver still opens the file, issues no payload read (`reqs` is empty),
closes the file exactly once, and leaves a zero-byte file with the received
name. -/
theorem negative_size_msg (name : List Nat) (z : Int)
    (h1 : 1 ≤ name.length) (h2 : name.length ≤ 255) (h3 : ∀ b ∈ name, b ≠ 0)
    (h4 : -(2 ^ 63) ≤ z) (h5 : z < 0) :
    handleClient (sendHeader name z) [] =
      [.rrecv 4 4, .rrecv name.length name.length, .rrecv 8 8, .fopen name,
        .fclose, .rrecv 4 0] ∧
    filesOf (handleClient (sendHeader name z) []) = [(name, [])] ∧
    closes (handleClient (sendHeader name z) []) = 1 ∧
    (payloadLoop z 0 ([] : List Nat) []).reqs = [] := by
  have hmain : handleClient (sendHeader name z) [] =
      [.rrecv 4 4, .rrecv name.length name.length, .rrecv 8 8, .fopen name,
        .fclose, .rrecv 4 0] := by
    have he : sendHeader name z = sendHeader name z ++ [] := by simp
    rw [he]
    unfold handleClient
    rw [handleClient_msg _ name [] z h1 h2 h3 h4 (by omega),
      payloadLoop_done z 0 [] [] (by omega)]
    set fuel := (sendHeader name z ++ []).length with hfuel
    obtain ⟨k, hk⟩ : ∃ k, fuel = k + 1 := by
      refine ⟨fuel - 1, ?_⟩
      rw [hfuel]
      simp [sendHeader]
      omega
    rw [hk, handleClientF_nil]
    simp
  refine ⟨hmain, ?_, ?_, ?_⟩
  · rw [hmain]
    simp [filesOf, filesOfAux]
  · rw [hmain]
    simp [closes]
  · rw [payloadLoop_done z 0 [] [] (by omega)]

/-- C10 (witness): declared size -1. -/
theorem negative_size_witness :
    handleClient (sendHeader [97] (-1)) [] =
      [.rrecv 4 4, .rrecv 1 1, .rrecv 8 8, .fopen [97], .fclose, .rrecv 4 0] ∧
    filesOf (handleClient (sendHeader [97] (-1)) []) = [([97], [])] ∧
    closes (handleClient (sendHeader [97] (-1)) []) = 1 ∧
    (payloadLoop (-1) 0 ([] : List Nat) []).reqs = [] :=
  negative_size_msg [97] (-1) (by decide) (by decide) (by decide)
    (by decide) (by decide)

/-- C8 (counterexample): a message declaring `nameLength = 0` does not
produce an empty-name file; the zero-length filename read returns 0, the
receiver treats it as a failed read, and the session ends with no file
created and the size/payload fields unparsed. -/
theorem zero_name_cex :
    filesOf (handleClient (enc32 0 ++ enc64 5 ++ [1, 2, 3, 4, 5]) []) = [] ∧
    handleClient (enc32 0 ++ enc64 5 ++ [1, 2, 3, 4, 5]) [] =
      [.rrecv 4 4, .rrecv 0 0] := by
  decide

/-- C8 (amended): a declared `nameLength` of 0 causes no out-of-bounds
read — the filename read requests exactly 0 bytes — and the receiver
aborts the session at that read, creating no file, for every remaining
stream content. -/
theorem zero_name_aborts (rest : List Nat) :
    handleClient (enc32 0 ++ rest) [] = [.rrecv 4 4, .rrecv 0 0] ∧
    filesOf (handleClient (enc32 0 ++ rest) []) = [] := by
  have hmain : handleClient (enc32 0 ++ rest) [] = [.rrecv 4 4, .rrecv 0 0] := by
    unfold handleClient
    conv_lhs => unfold handleClientF
    dsimp only [popCap, Option.getD]
    have hlen : (enc32 0 ++ rest).length = 4 + rest.length := by simp
    have hg1 : min (min 4 (enc32 0 ++ rest).length) (enc32 0 ++ rest).length = 4 := by
      rw [hlen]; omega
    rw [hg1, if_neg (by decide), List.take_left' (enc32_length 0),
      padZ_of_length 4 _ (enc32_length 0), dec32_enc32 0 (by norm_num)]
    simp
  exact ⟨hmain, by rw [hmain]; simp [filesOf, filesOfAux]⟩

/-- C9 (code evaluation at the failing input): when the transport delivers
only 2 of the 4 bytes of the name-length field in the first `recv`, the
receiver — which only checks `recv(...) <= 0` — proceeds straight to the
filename read instead of completing the field: the trace opens with a read
of 4 that delivered 2, immediately followed by the filename read. -/
theorem split_header_eval :
    (handleClient (enc32 1 ++ [65] ++ enc64 1 ++ [66]) [2]).take 2 =
      [.rrecv 4 2, .rrecv 1 1] := by
  decide

/-- C4 (code evaluation at the failing input): with 2 frames remaining, a
ready indication whose dequeue fails fatally (`read_frame` returns -1) is
counted by `if (read_frame()) count--` exactly like a success: the counter
drops to 1 with no frame sent, the loop does not terminate on the error,
and after one genuine frame the run ends by the counter with only one frame
transmitted and no error exit. -/
theorem capture_fatal_eval :
    mainLoop 2 [.ready .fatal, .ready (.frame 9)] = (0, [9], false) := by
  decide

/-- C6: the payload write loop confirms exactly the device-reported
used-length leading bytes of the buffer on the wire: whenever every `send`
result is non-negative and the results can cover the payload, the loop
retries through short (even zero-byte) writes and finishes having sent
precisely `buffer.take used`, whose length is `used` — no truncation, no
padding. -/
theorem transmit_exact (buffer : List Nat) (used : Nat) (oracle : List Int)
    (h0 : used ≤ buffer.length) (h1 : ∀ k ∈ oracle, 0 ≤ k)
    (h2 : used ≤ (oracle.map Int.toNat).sum) :
    sendFrameData buffer used oracle = (buffer.take used, true) ∧
    (buffer.take used).length = used := by
  have hlen : (buffer.take used).length = used := by
    simp [List.length_take]
    omega
  have hall : ∀ (q : List Nat) (o : List Int), (∀ k ∈ o, 0 ≤ k) →
      ∀ total, q.length - total ≤ (o.map Int.toNat).sum →
      sendLoop q total o = (q.drop total, true) := by
    intro q o
    induction o with
    | nil =>
      intro hpos total hsum
      unfold sendLoop
      simp only [List.map_nil, List.sum_nil] at hsum
      rw [if_neg (by omega), List.drop_eq_nil_of_le (by omega)]
    | cons k rest ih =>
      intro hpos total hsum
      have hk := hpos k (List.mem_cons_self _ _)
      have hrest := fun x hx => hpos x (List.mem_cons_of_mem k hx)
      simp only [List.map_cons, List.sum_cons] at hsum
      unfold sendLoop
      by_cases hlt : total < q.length
      · rw [if_pos hlt, if_neg (by omega)]
        dsimp only
        rw [ih hrest (total + min k.toNat (q.length - total)) (by omega)]
        have hd : q.drop (total + min k.toNat (q.length - total)) =
            (q.drop total).drop (min k.toNat (q.length - total)) := by
          rw [List.drop_drop, Nat.add_comm]
        rw [hd, List.take_append_drop]
      · rw [if_neg hlt, List.drop_eq_nil_of_le (by omega)]
  refine ⟨?_, hlen⟩
  unfold sendFrameData
  have := hall (buffer.take used) oracle h1 0 (by omega)
  simpa using this

/-- C6 (witness): a 5-byte used-length sent through results 2, 0, 3 —
a short write and a zero write retried, then completion. -/
theorem transmit_exact_witness :
    sendFrameData [1, 2, 3, 4, 5, 6] 5 [2, 0, 3] = ([1, 2, 3, 4, 5], true) ∧
    ([1, 2, 3, 4, 5, 6].take 5).length = 5 :=
  transmit_exact [1, 2, 3, 4, 5, 6] 5 [2, 0, 3] (by decide) (by decide) (by decide)

end CRTP
